import Mathlib

/-!
Verification of the real-time room-broadcast subsystem of the Nutritionist
backend (src/main.py, lines 215-250).

The shared state is `connections : Dict[str, Set[WebSocket]]`, a process-wide
mapping from room name to the set of connection handles joined to that room.
We embed it as an association list from room names to member sets,
where a handle is an opaque identity (a natural number).  A handle's transport
is modelled by two environment facts: whether a `send_text` to it raises
(`fails : Handle → Bool`, fixed for one delivery pass), and whether its
transport has been closed (tracked in `BSys.closed`).

Python operations that can raise are embedded as `Except String` computations
(`dictGetE` for `connections[room]`, `setRemoveE` for `set.remove`,
`sendTextE` for `ws.send_text`); each `try/except` in the source becomes an
explicit `match` on the `Except` value.
-/

/-- A connection handle: the opaque identity of one WebSocket connection,
used for set membership and removal. -/
abbrev Handle := Nat

/-- A room name (the `{room}` path segment of the endpoint URL). -/
abbrev Room := String

/-- A room's member set, as stored in the registry (`Set[WebSocket]`):
a list of handles that the set operations keep free of duplicates
(a Python set never holds the same element twice). -/
abbrev Members := List Handle

/-- The room registry `connections : Dict[str, Set[WebSocket]]`
(src/main.py line 215), embedded as an association list from room
name to member set. -/
abbrev Reg := List (Room × Members)

/-- Dictionary lookup: the member set bound to `r`, if `r` is a key. -/
def regLookup : Reg → Room → Option Members
  | [], _ => none
  | (r', s') :: rest, r => if r' = r then some s' else regLookup rest r

/-- Dictionary write `connections[r] = s`: replaces the binding of `r`
if present, otherwise appends a new binding. -/
def regSet : Reg → Room → Members → Reg
  | [], r, s => [(r, s)]
  | (r', s') :: rest, r, s =>
      if r' = r then (r, s) :: rest else (r', s') :: regSet rest r s

/-- Whether handle `h` is currently in room `r`'s member set. -/
def memReg (reg : Reg) (r : Room) (h : Handle) : Bool :=
  match regLookup reg r with
  | none => false
  | some s => decide (h ∈ s)

/-- Set removal `s.remove(h)` on the list representation: removes the
element `h` (every occurrence, as a set holds at most one). -/
def setErase (s : Members) (h : Handle) : Members :=
  s.filter (fun x => decide (x ≠ h))

/-- The effect of `await ws.send_text(message)` on handle `h`: raises
exactly when the transport environment says the send to `h` fails. -/
def sendTextE (fails : Handle → Bool) (h : Handle) (_msg : String) :
    Except String Unit :=
  if fails h then Except.error "transport send failed" else Except.ok ()

/-- The effect of the dictionary access `connections[room]`: raises
`KeyError` when `room` is not a key. -/
def dictGetE (reg : Reg) (room : Room) : Except String Members :=
  match regLookup reg room with
  | none => Except.error "KeyError"
  | some s => Except.ok s

/-- The effect of `set.remove(h)`: raises `KeyError` when `h` is absent. -/
def setRemoveE (s : Members) (h : Handle) : Except String Members :=
  if h ∈ s then Except.ok (setErase s h) else Except.error "KeyError"

/-- The body `connections[room].remove(ws)` of the guarded removal
(src/main.py line 228): a dictionary access followed by a set removal,
either of which can raise. -/
def removeOnceE (reg : Reg) (room : Room) (h : Handle) : Except String Reg := do
  let s ← dictGetE reg room
  let s' ← setRemoveE s h
  pure (regSet reg room s')

/-- The registry `leave` operation, `try: connections[room].remove(ws)
except Exception: pass` (src/main.py lines 227-230 and 247-250): any
raised exception is swallowed and the registry is left unchanged. -/
def leave (reg : Reg) (room : Room) (h : Handle) : Reg :=
  match removeOnceE reg room h with
  | Except.ok reg' => reg'
  | Except.error _ => reg

/-- Set insertion `s.add(h)`: a no-op when `h` is already present. -/
def setAdd (s : Members) (h : Handle) : Members :=
  if h ∈ s then s else s ++ [h]

/-- The registry `join` operation (src/main.py lines 236-238):
`if room not in connections: connections[room] = set()` followed by
`connections[room].add(websocket)`. -/
def join (reg : Reg) (room : Room) (h : Handle) : Reg :=
  match regLookup reg room with
  | none => regSet reg room (setAdd [] h)
  | some s => regSet reg room (setAdd s h)

/-- The send loop of `_broadcast` (src/main.py lines 220-225): for each
handle in the snapshot, attempt the send; a success delivers the message,
a raised exception is caught and the handle appended to `to_remove`.
Returns `(delivered, to_remove)` in snapshot order. -/
def sendPass (fails : Handle → Bool) (msg : String) (ws : List Handle) :
    List Handle × List Handle :=
  ws.foldl
    (fun acc h =>
      match sendTextE fails h msg with
      | Except.ok _ => (acc.1 ++ [h], acc.2)
      | Except.error _ => (acc.1, acc.2 ++ [h]))
    ([], [])

/-- The broadcast engine `_broadcast(room, message)` (src/main.py lines
217-230): return immediately if `room` is not a key; otherwise take a
snapshot `list(connections[room])`, run the send loop, then remove each
handle of `to_remove` with the exception-swallowing removal.  Returns the
new registry and the list of handles the message was delivered to. -/
def _broadcast (reg : Reg) (room : Room) (msg : String)
    (fails : Handle → Bool) : Reg × List Handle :=
  match regLookup reg room with
  | none => (reg, [])
  | some s =>
      let p := sendPass fails msg s
      (p.2.foldl (fun r h => leave r room h) reg, p.1)

/-- `_broadcast` with every possibly-raising operation explicit in the
`Except` monad: the initial membership test, the snapshot access, the
sends (each wrapped in its own `try/except` inside `sendPass`), and the
removals (each wrapped in `leave`).  An uncaught exception anywhere would
surface here as `Except.error`. -/
def _broadcastE (reg : Reg) (room : Room) (msg : String)
    (fails : Handle → Bool) : Except String (Reg × List Handle) :=
  if (regLookup reg room).isNone then Except.ok (reg, [])
  else
    match dictGetE reg room with
    | Except.error e => Except.error e
    | Except.ok s =>
        let p := sendPass fails msg s
        Except.ok (p.2.foldl (fun r h => leave r room h) reg, p.1)

/-- The registry together with the set of handles whose transport has been
closed.  No statement in src/main.py lines 215-250 closes a WebSocket
(`_broadcast`'s removal loop only calls `connections[room].remove(ws)`, and
`websocket_endpoint`'s `finally` block likewise only removes), so no
modelled operation adds to `closed`. -/
structure BSys where
  reg : Reg
  closed : List Handle

/-- `_broadcast` acting on a registry paired with the closed-transport set:
the registry is updated as by `_broadcast`; the source contains no
`ws.close()` call, so the closed set is returned unchanged. -/
def broadcastSys (s : BSys) (room : Room) (msg : String)
    (fails : Handle → Bool) : BSys × List Handle :=
  let p := _broadcast s.reg room msg fails
  (⟨p.1, s.closed⟩, p.2)

/-- How a connection's receive loop ends: `receive_text` raises either
`WebSocketDisconnect` (a graceful disconnect) or some other exception. -/
inductive Terminator where
  | disconnect : Terminator
  | err : String → Terminator

/-- One lifecycle of `websocket_endpoint(websocket, room)` (src/main.py
lines 233-250), given the inbound messages received before the loop ends
(each with the transport outcomes its broadcast observes) and how the loop
ends.  `accept`, then join; the loop broadcasts each received text; a
`WebSocketDisconnect` is caught (`except WebSocketDisconnect: pass`) while
any other exception propagates to the caller; the `finally` block removes
the handle on every exit path.  Returns the final registry and the
propagated exception, if any. -/
def websocket_endpoint (reg : Reg) (room : Room) (h : Handle)
    (msgs : List (String × (Handle → Bool))) (t : Terminator) :
    Reg × Option String :=
  let reg1 := join reg room h
  let reg2 := msgs.foldl (fun r m => (_broadcast r room m.1 m.2).1) reg1
  let exc : Option String :=
    match t with
    | Terminator.disconnect => none
    | Terminator.err e => some e
  (leave reg2 room h, exc)

/-- The phase of one connection's lifecycle: not yet accepted, inside the
receive loop, or terminated (its `finally` cleanup has run). -/
inductive Phase where
  | conn : Phase
  | recv : Phase
  | done : Phase
deriving DecidableEq

/-- A state of the whole server: the shared registry plus the phase of
every connection's lifecycle. -/
structure LSys where
  reg : Reg
  phase : Handle → Phase

/-- Interleaved execution of the connection lifecycles, one event per step.
`roomOf h` is the `{room}` path segment of handle `h`'s connection, fixed
for the whole lifecycle: `websocket_endpoint` only ever joins, broadcasts
to, and leaves that one room on behalf of `h`. -/
inductive Step (roomOf : Handle → Room) : LSys → LSys → Prop
  | accept (s : LSys) (h : Handle) (hp : s.phase h = Phase.conn) :
      Step roomOf s
        ⟨join s.reg (roomOf h) h,
         fun h' => if h' = h then Phase.recv else s.phase h'⟩
  | message (s : LSys) (h : Handle) (msg : String) (fails : Handle → Bool)
      (hp : s.phase h = Phase.recv) :
      Step roomOf s ⟨(_broadcast s.reg (roomOf h) msg fails).1, s.phase⟩
  | close (s : LSys) (h : Handle) (hp : s.phase h = Phase.recv) :
      Step roomOf s
        ⟨leave s.reg (roomOf h) h,
         fun h' => if h' = h then Phase.done else s.phase h'⟩

/-- The server's initial state: no rooms, every connection unaccepted. -/
def initSys : LSys := ⟨[], fun _ => Phase.conn⟩

/-- The states reachable from the initial state by the join, leave and
broadcast operations as the endpoint performs them. -/
def Reachable (roomOf : Handle → Room) (s : LSys) : Prop :=
  Relation.ReflTransGen (Step roomOf) initSys s

/-! ## Registry lemmas -/

theorem regLookup_regSet (reg : Reg) (r0 : Room) (s0 : Members) (r : Room) :
    regLookup (regSet reg r0 s0) r =
      if r0 = r then some s0 else regLookup reg r := by
  induction reg with
  | nil => simp [regSet, regLookup]
  | cons p rest ih =>
      obtain ⟨r', s'⟩ := p
      by_cases h1 : r' = r0 <;> by_cases h2 : r0 = r <;>
        simp_all [regSet, regLookup]

theorem memReg_regSet (reg : Reg) (r0 : Room) (s0 : Members) (r : Room)
    (h : Handle) :
    memReg (regSet reg r0 s0) r h =
      if r0 = r then decide (h ∈ s0) else memReg reg r h := by
  simp only [memReg, regLookup_regSet]
  by_cases h2 : r0 = r <;> simp [h2]

theorem mem_setAdd (s : Members) (h0 h : Handle) :
    h ∈ setAdd s h0 ↔ (h ∈ s ∨ h = h0) := by
  simp only [setAdd]
  by_cases hm : h0 ∈ s
  · simp only [if_pos hm]
    constructor
    · exact Or.inl
    · rintro (hh | rfl)
      · exact hh
      · exact hm
  · simp [hm]

theorem mem_setErase (s : Members) (h0 h : Handle) :
    h ∈ setErase s h0 ↔ (h ∈ s ∧ h ≠ h0) := by
  simp [setErase, List.mem_filter]

theorem leave_eq (reg : Reg) (room : Room) (h : Handle) :
    leave reg room h =
      match regLookup reg room with
      | none => reg
      | some s => if h ∈ s then regSet reg room (setErase s h) else reg := by
  cases hl : regLookup reg room with
  | none =>
      simp [leave, removeOnceE, dictGetE, hl, bind, Except.bind]
  | some s =>
      by_cases hm : h ∈ s <;>
        simp [leave, removeOnceE, dictGetE, setRemoveE, hl, hm, bind,
          Except.bind, Functor.map, Except.map, pure, Except.pure]

theorem memReg_none (reg : Reg) (r : Room) (h : Handle)
    (hl : regLookup reg r = none) : memReg reg r h = false := by
  simp [memReg, hl]

theorem memReg_some (reg : Reg) (r : Room) (s : Members) (h : Handle)
    (hl : regLookup reg r = some s) : memReg reg r h = decide (h ∈ s) := by
  simp [memReg, hl]

theorem memReg_leave (reg : Reg) (r0 : Room) (h0 : Handle) (r : Room)
    (h : Handle) :
    memReg (leave reg r0 h0) r h = true ↔
      (memReg reg r h = true ∧ ¬ (r = r0 ∧ h = h0)) := by
  rw [leave_eq]
  cases hl : regLookup reg r0 with
  | none =>
      constructor
      · intro hm
        refine ⟨hm, ?_⟩
        rintro ⟨rfl, rfl⟩
        rw [memReg_none reg r h hl] at hm
        cases hm
      · exact fun hp => hp.1
  | some s =>
      by_cases hm : h0 ∈ s
      · simp only [if_pos hm, memReg_regSet]
        by_cases h2 : r0 = r
        · subst h2
          simp [mem_setErase, memReg_some reg r0 s h hl]
        · simp only [if_neg h2]
          have h2' : ¬ (r = r0) := fun hh => h2 hh.symm
          tauto
      · simp only [if_neg hm]
        by_cases h2 : r = r0
        · subst h2
          constructor
          · intro hmem
            refine ⟨hmem, ?_⟩
            rintro ⟨-, rfl⟩
            rw [memReg_some reg r s h hl, decide_eq_true_eq] at hmem
            exact hm hmem
          · exact fun hp => hp.1
        · tauto

theorem memReg_join (reg : Reg) (r0 : Room) (h0 : Handle) (r : Room)
    (h : Handle) :
    memReg (join reg r0 h0) r h = true ↔
      (memReg reg r h = true ∨ (r = r0 ∧ h = h0)) := by
  unfold join
  cases hl : regLookup reg r0 with
  | none =>
      simp only [memReg_regSet]
      by_cases h2 : r0 = r
      · subst h2
        simp [mem_setAdd, memReg_none reg r0 h hl]
      · have h2' : ¬ (r = r0) := fun hh => h2 hh.symm
        simp only [if_neg h2]
        tauto
  | some s =>
      simp only [memReg_regSet]
      by_cases h2 : r0 = r
      · subst h2
        simp [mem_setAdd, memReg_some reg r0 s h hl]
      · have h2' : ¬ (r = r0) := fun hh => h2 hh.symm
        simp only [if_neg h2]
        tauto

theorem leave_absent (reg : Reg) (room : Room) (h : Handle)
    (ha : memReg reg room h = false) : leave reg room h = reg := by
  rw [leave_eq]
  cases hl : regLookup reg room with
  | none => rfl
  | some s =>
      rw [memReg_some reg room s h hl, decide_eq_false_iff_not] at ha
      simp [ha]

theorem memReg_foldl_leave (l : List Handle) (reg : Reg) (room r : Room)
    (h : Handle) :
    memReg (l.foldl (fun racc x => leave racc room x) reg) r h = true ↔
      (memReg reg r h = true ∧ ¬ (r = room ∧ h ∈ l)) := by
  induction l generalizing reg with
  | nil => simp
  | cons x rest ih =>
      simp only [List.foldl_cons]
      rw [ih, memReg_leave]
      constructor
      · rintro ⟨⟨hm, hnx⟩, hnr⟩
        refine ⟨hm, ?_⟩
        rintro ⟨rfl, hmem⟩
        rcases List.mem_cons.mp hmem with rfl | hr
        · exact hnx ⟨rfl, rfl⟩
        · exact hnr ⟨rfl, hr⟩
      · rintro ⟨hm, hn⟩
        refine ⟨⟨hm, ?_⟩, ?_⟩
        · rintro ⟨rfl, rfl⟩
          exact hn ⟨rfl, List.mem_cons_self _ _⟩
        · rintro ⟨rfl, hr⟩
          exact hn ⟨rfl, List.mem_cons_of_mem _ hr⟩

/-! ## Broadcast lemmas -/

theorem sendPass_go (fails : Handle → Bool) (msg : String) (ws : List Handle)
    (acc0 : List Handle × List Handle) :
    ws.foldl
      (fun acc h =>
        match sendTextE fails h msg with
        | Except.ok _ => (acc.1 ++ [h], acc.2)
        | Except.error _ => (acc.1, acc.2 ++ [h]))
      acc0 =
    (acc0.1 ++ ws.filter (fun h => !fails h),
     acc0.2 ++ ws.filter (fun h => fails h)) := by
  induction ws generalizing acc0 with
  | nil => simp
  | cons x rest ih =>
      simp only [List.foldl_cons]
      by_cases hf : fails x
      · have hx :
            (match sendTextE fails x msg with
              | Except.ok _ => (acc0.1 ++ [x], acc0.2)
              | Except.error _ => (acc0.1, acc0.2 ++ [x])) =
            (acc0.1, acc0.2 ++ [x]) := by
          simp [sendTextE, hf]
        rw [hx, ih]
        simp [List.filter_cons, hf]
      · have hx :
            (match sendTextE fails x msg with
              | Except.ok _ => (acc0.1 ++ [x], acc0.2)
              | Except.error _ => (acc0.1, acc0.2 ++ [x])) =
            (acc0.1 ++ [x], acc0.2) := by
          simp [sendTextE, hf]
        rw [hx, ih]
        simp [List.filter_cons, hf]

theorem sendPass_eq (fails : Handle → Bool) (msg : String) (ws : List Handle) :
    sendPass fails msg ws =
      (ws.filter (fun h => !fails h), ws.filter (fun h => fails h)) := by
  have := sendPass_go fails msg ws ([], [])
  simpa [sendPass] using this

theorem broadcast_fst_mem (reg : Reg) (room : Room) (msg : String)
    (fails : Handle → Bool) (r : Room) (h : Handle) :
    memReg ((_broadcast reg room msg fails).1) r h = true ↔
      (memReg reg r h = true ∧
        ¬ (r = room ∧ memReg reg room h = true ∧ fails h = true)) := by
  cases hl : regLookup reg room with
  | none =>
      simp only [_broadcast, hl]
      constructor
      · intro hm
        refine ⟨hm, ?_⟩
        rintro ⟨rfl, hmem, -⟩
        rw [memReg_none reg r h hl] at hmem
        cases hmem
      · exact fun hp => hp.1
  | some s =>
      simp only [_broadcast, hl, sendPass_eq]
      rw [memReg_foldl_leave]
      have hms : ∀ x, memReg reg room x = true ↔ x ∈ s := by
        intro x
        rw [memReg_some reg room s x hl, decide_eq_true_eq]
      constructor
      · rintro ⟨hm, hn⟩
        refine ⟨hm, ?_⟩
        rintro ⟨rfl, hmem, hf⟩
        exact hn ⟨rfl, List.mem_filter.mpr ⟨(hms h).mp hmem, hf⟩⟩
      · rintro ⟨hm, hn⟩
        refine ⟨hm, ?_⟩
        rintro ⟨rfl, hmem⟩
        have hmf := List.mem_filter.mp hmem
        exact hn ⟨rfl, (hms h).mpr hmf.1, hmf.2⟩

theorem broadcast_snd_mem (reg : Reg) (room : Room) (msg : String)
    (fails : Handle → Bool) (h : Handle) :
    h ∈ (_broadcast reg room msg fails).2 ↔
      (memReg reg room h = true ∧ fails h = false) := by
  cases hl : regLookup reg room with
  | none => simp [_broadcast, hl, memReg_none reg room h hl]
  | some s =>
      simp [_broadcast, hl, sendPass_eq, List.mem_filter,
        memReg_some reg room s h hl]

theorem broadcastE_eq (reg : Reg) (room : Room) (msg : String)
    (fails : Handle → Bool) :
    _broadcastE reg room msg fails =
      Except.ok (_broadcast reg room msg fails) := by
  cases hl : regLookup reg room with
  | none => simp [_broadcastE, _broadcast, hl]
  | some s => simp [_broadcastE, _broadcast, dictGetE, hl]

/-! ## Registry-key (frame) lemmas -/

theorem keys_regSet (reg : Reg) (r : Room) (s s' : Members)
    (hl : regLookup reg r = some s) :
    (regSet reg r s').map Prod.fst = reg.map Prod.fst := by
  induction reg with
  | nil => simp [regLookup] at hl
  | cons p rest ih =>
      obtain ⟨r1, m1⟩ := p
      by_cases h1 : r1 = r
      · subst h1
        simp [regSet]
      · simp only [regLookup, if_neg h1] at hl
        simp [regSet, h1, ih hl]

theorem keys_leave (reg : Reg) (room : Room) (h : Handle) :
    (leave reg room h).map Prod.fst = reg.map Prod.fst := by
  rw [leave_eq]
  cases hl : regLookup reg room with
  | none => rfl
  | some s =>
      by_cases hm : h ∈ s
      · simp only [if_pos hm]
        exact keys_regSet reg room s _ hl
      · simp [hm]

theorem keys_foldl_leave (l : List Handle) (reg : Reg) (room : Room) :
    (l.foldl (fun racc x => leave racc room x) reg).map Prod.fst =
      reg.map Prod.fst := by
  induction l generalizing reg with
  | nil => rfl
  | cons x rest ih =>
      simp only [List.foldl_cons]
      rw [ih, keys_leave]

theorem keys_broadcast (reg : Reg) (room : Room) (msg : String)
    (fails : Handle → Bool) :
    ((_broadcast reg room msg fails).1).map Prod.fst = reg.map Prod.fst := by
  cases hl : regLookup reg room with
  | none => simp [_broadcast, hl]
  | some s => simp [_broadcast, hl, sendPass_eq, keys_foldl_leave]

theorem regLookup_join_none (reg : Reg) (r : Room) (h : Handle)
    (hl : regLookup reg r = none) :
    regLookup (join reg r h) r = some [h] := by
  simp [join, hl, regLookup_regSet, setAdd]

theorem leave_last (reg : Reg) (r : Room) (h : Handle)
    (hl : regLookup reg r = some [h]) :
    regLookup (leave reg r h) r = some [] := by
  rw [leave_eq, hl]
  simp [setErase, regLookup_regSet]

/-! ## Single-room invariant for the interleaved lifecycles -/

/-- Every handle present in some room's member set is in the member set of
the room of its own connection. -/
def InvR (roomOf : Handle → Room) (s : LSys) : Prop :=
  ∀ r h, memReg s.reg r h = true → r = roomOf h

theorem invR_step (roomOf : Handle → Room) (s s' : LSys)
    (hs : Step roomOf s s') (hinv : InvR roomOf s) : InvR roomOf s' := by
  cases hs with
  | accept h hp =>
      intro r x hm
      rcases (memReg_join s.reg (roomOf h) h r x).mp hm with hold | ⟨rfl, rfl⟩
      · exact hinv r x hold
      · rfl
  | message h msg fails hp =>
      intro r x hm
      exact hinv r x ((broadcast_fst_mem s.reg (roomOf h) msg fails r x).mp hm).1
  | close h hp =>
      intro r x hm
      exact hinv r x ((memReg_leave s.reg (roomOf h) h r x).mp hm).1

theorem invR_reachable (roomOf : Handle → Room) (s : LSys)
    (hs : Reachable roomOf s) : InvR roomOf s := by
  induction hs with
  | refl =>
      intro r h hm
      simp [initSys, memReg, regLookup] at hm
  | tail _ hstep ih => exact invR_step roomOf _ _ hstep ih

/-! ## Claim theorems -/

/-- C1: Broadcast isolation — if room `r`'s member set contains handles
`A`, `B`, `C`, and the send to `B` fails while the sends to `A` and `C`
succeed, then `_broadcast(r, msg)` still delivers `msg` to `A` and to `C`,
and after the delivery pass `B` is no longer in `r`'s member set. -/
theorem broadcast_isolation (reg : Reg) (r : Room) (msg : String)
    (fails : Handle → Bool) (A B C : Handle)
    (hA : memReg reg r A = true) (hB : memReg reg r B = true)
    (hC : memReg reg r C = true) (fB : fails B = true)
    (fA : fails A = false) (fC : fails C = false) :
    A ∈ (_broadcast reg r msg fails).2 ∧
    C ∈ (_broadcast reg r msg fails).2 ∧
    memReg ((_broadcast reg r msg fails).1) r B = false := by
  refine ⟨(broadcast_snd_mem reg r msg fails A).mpr ⟨hA, fA⟩,
    (broadcast_snd_mem reg r msg fails C).mpr ⟨hC, fC⟩, ?_⟩
  cases hmem : memReg ((_broadcast reg r msg fails).1) r B
  · rfl
  · exact (((broadcast_fst_mem reg r msg fails r B).mp hmem).2
      ⟨rfl, hB, fB⟩).elim

/-- Witness for C1: room "r" holds {0, 1, 2}, the send to 1 fails;
0 and 2 still receive and 1 is evicted. -/
theorem broadcast_isolation_witness :
    0 ∈ (_broadcast [("r", [0, 1, 2])] "r" "hi" (fun x => decide (x = 1))).2 ∧
    2 ∈ (_broadcast [("r", [0, 1, 2])] "r" "hi" (fun x => decide (x = 1))).2 ∧
    memReg ((_broadcast [("r", [0, 1, 2])] "r" "hi"
      (fun x => decide (x = 1))).1) "r" 1 = false :=
  broadcast_isolation [("r", [0, 1, 2])] "r" "hi" (fun x => decide (x = 1))
    0 1 2 (by decide) (by decide) (by decide) (by decide) (by decide)
    (by decide)

/-- C2 (amended): after the delivery pass, every handle whose send failed
is removed from the room's member set, but its transport is not closed by
`_broadcast` — the removal loop of src/main.py lines 226-230 contains no
close call, so the closed-transport set is unchanged. -/
theorem broadcast_evicts_without_closing (s : BSys) (room : Room)
    (msg : String) (fails : Handle → Bool) (h : Handle)
    (hm : memReg s.reg room h = true) (hf : fails h = true) :
    memReg ((broadcastSys s room msg fails).1).reg room h = false ∧
    ((broadcastSys s room msg fails).1).closed = s.closed := by
  have hred : ((broadcastSys s room msg fails).1).reg =
      (_broadcast s.reg room msg fails).1 := rfl
  have hcl : ((broadcastSys s room msg fails).1).closed = s.closed := rfl
  refine ⟨?_, hcl⟩
  rw [hred]
  cases hmem : memReg ((_broadcast s.reg room msg fails).1) room h
  · rfl
  · exact (((broadcast_fst_mem s.reg room msg fails room h).mp hmem).2
      ⟨rfl, hm, hf⟩).elim

/-- Witness for the amended C2: room "general" holds {1, 2}, handle 2's
transport is open and its send fails; 2 is evicted and nothing is closed. -/
theorem broadcast_evicts_without_closing_witness :
    memReg ((broadcastSys ⟨[("general", [1, 2])], []⟩ "general" "m"
      (fun x => decide (x = 2))).1).reg "general" 2 = false ∧
    ((broadcastSys ⟨[("general", [1, 2])], []⟩ "general" "m"
      (fun x => decide (x = 2))).1).closed = [] :=
  broadcast_evicts_without_closing ⟨[("general", [1, 2])], []⟩ "general" "m"
    (fun x => decide (x = 2)) 2 (by decide) (by decide)

/-- C2 counterexample: with room "general" = {1, 2}, no transport closed,
and exactly the send to handle 2 failing, the delivery pass removes handle
2 from the member set but does not close its transport — refuting the
claim that every failed handle is both removed and closed. -/
theorem broadcast_close_counterexample :
    ¬ (∀ h : Handle,
        memReg [("general", [1, 2])] "general" h = true →
        decide (h = 2) = true →
        (memReg ((broadcastSys ⟨[("general", [1, 2])], []⟩ "general" "m"
            (fun x => decide (x = 2))).1).reg "general" h = false ∧
          h ∈ ((broadcastSys ⟨[("general", [1, 2])], []⟩ "general" "m"
            (fun x => decide (x = 2))).1).closed)) := by
  intro hall
  have h2 := hall 2 (by decide) (by decide)
  exact absurd h2.2 (by decide)

/-- C3: `_broadcast` applies no sender exclusion — every member of the
room whose send succeeds receives the message, and in particular the
sending connection (a member of the room) receives its own message. -/
theorem broadcast_includes_sender (reg : Reg) (room : Room) (msg : String)
    (fails : Handle → Bool) (sender : Handle)
    (hs : memReg reg room sender = true) :
    (∀ h : Handle, memReg reg room h = true → fails h = false →
        h ∈ (_broadcast reg room msg fails).2) ∧
    (fails sender = false → sender ∈ (_broadcast reg room msg fails).2) :=
  ⟨fun h hm hf => (broadcast_snd_mem reg room msg fails h).mpr ⟨hm, hf⟩,
   fun hf => (broadcast_snd_mem reg room msg fails sender).mpr ⟨hs, hf⟩⟩

/-- Witness for C3: sender 5 and peer 6 are both in "general" with healthy
transports; a broadcast from 5 reaches 6 and echoes back to 5. -/
theorem broadcast_includes_sender_witness :
    6 ∈ (_broadcast [("general", [5, 6])] "general" "hello"
      (fun _ => false)).2 ∧
    5 ∈ (_broadcast [("general", [5, 6])] "general" "hello"
      (fun _ => false)).2 :=
  ⟨(broadcast_includes_sender [("general", [5, 6])] "general" "hello"
      (fun _ => false) 5 (by decide)).1 6 (by decide) rfl,
   (broadcast_includes_sender [("general", [5, 6])] "general" "hello"
      (fun _ => false) 5 (by decide)).2 rfl⟩

/-- C4: `_broadcast` never raises to its caller — with every
possibly-raising operation explicit in the `Except` monad, the result is
always `Except.ok`, and it equals the pure `_broadcast` result: every
per-member transport failure is caught inside the delivery pass. -/
theorem broadcast_never_raises (reg : Reg) (room : Room) (msg : String)
    (fails : Handle → Bool) :
    _broadcastE reg room msg fails =
      Except.ok (_broadcast reg room msg fails) :=
  broadcastE_eq reg room msg fails

/-- C5: every exit path of `websocket_endpoint` — a graceful
`WebSocketDisconnect` as well as any other error terminating the receive
loop — reaches the `finally` cleanup, so the connection's handle is absent
from its room's member set in the final registry. -/
theorem endpoint_always_leaves (reg : Reg) (room : Room) (h : Handle)
    (msgs : List (String × (Handle → Bool))) (t : Terminator) :
    memReg (websocket_endpoint reg room h msgs t).1 room h = false := by
  have hred : (websocket_endpoint reg room h msgs t).1 =
      leave (msgs.foldl (fun r m => (_broadcast r room m.1 m.2).1)
        (join reg room h)) room h := rfl
  rw [hred]
  generalize (msgs.foldl (fun r m => (_broadcast r room m.1 m.2).1)
    (join reg room h)) = reg2
  cases hmem : memReg (leave reg2 room h) room h
  · rfl
  · exact (((memReg_leave reg2 room h room h).mp hmem).2 ⟨rfl, rfl⟩).elim

/-- C6: no cross-room leakage — a handle that is a member only of room
`r'` (and not of the broadcast target `r ≠ r'`) is never among the
handles a broadcast to `r` delivers to. -/
theorem no_cross_room_leakage (reg : Reg) (r r' : Room) (msg : String)
    (fails : Handle → Bool) (h : Handle) (_hne : r ≠ r')
    (_honly : memReg reg r' h = true) (hnot : memReg reg r h = false) :
    h ∉ (_broadcast reg r msg fails).2 := by
  intro hin
  rcases (broadcast_snd_mem reg r msg fails h).mp hin with ⟨hm, -⟩
  rw [hnot] at hm
  exact Bool.noConfusion hm

/-- Witness for C6: handle 2, joined only to "clinic42", does not receive
a broadcast to "general". -/
theorem no_cross_room_leakage_witness :
    2 ∉ (_broadcast [("general", [1]), ("clinic42", [2])] "general" "m"
      (fun _ => false)).2 :=
  no_cross_room_leakage [("general", [1]), ("clinic42", [2])] "general"
    "clinic42" "m" (fun _ => false) 2 (by decide) (by decide) (by decide)

/-- C7: leave idempotence — leaving twice in a row ends in the same
registry state as leaving once, `h` is absent from `r`'s member set after
a leave, and leaving while absent is a no-op that raises no error. -/
theorem leave_idempotent (reg : Reg) (r : Room) (h : Handle) :
    leave (leave reg r h) r h = leave reg r h ∧
    memReg (leave reg r h) r h = false ∧
    (memReg reg r h = false → leave reg r h = reg) := by
  have habs : memReg (leave reg r h) r h = false := by
    cases hmem : memReg (leave reg r h) r h
    · rfl
    · exact (((memReg_leave reg r h r h).mp hmem).2 ⟨rfl, rfl⟩).elim
  exact ⟨leave_absent (leave reg r h) r h habs, habs, leave_absent reg r h⟩

/-- Witness for C7: double leave of a present handle, and a leave of an
absent handle returning the registry untouched. -/
theorem leave_idempotent_witness :
    leave (leave [("r", [1, 2])] "r" 1) "r" 1 = leave [("r", [1, 2])] "r" 1 ∧
    leave [("r", [1, 2])] "r" 5 = [("r", [1, 2])] :=
  ⟨(leave_idempotent [("r", [1, 2])] "r" 1).1,
   (leave_idempotent [("r", [1, 2])] "r" 5).2.2 (by decide)⟩

/-- C8: single-room membership — in every state reachable from the empty
registry by the lifecycle operations (each connection joins, broadcasts
to, and leaves only the room fixed by its endpoint URL), a handle found
in the member sets of rooms `r1` and `r2` forces `r1 = r2`. -/
theorem single_room_membership (roomOf : Handle → Room) (s : LSys)
    (r1 r2 : Room) (h : Handle) (hs : Reachable roomOf s)
    (h1 : memReg s.reg r1 h = true) (h2 : memReg s.reg r2 h = true) :
    r1 = r2 := by
  have hinv := invR_reachable roomOf s hs
  rw [hinv r1 h h1, hinv r2 h h2]

/-- Witness for C8: after one accept step from the initial state, handle 0
is a member of "general", and both memberships name the same room. -/
theorem single_room_membership_witness :
    memReg (join [] "general" 0) "general" 0 = true ∧
    ("general" : Room) = "general" :=
  ⟨by decide,
   single_room_membership (fun _ => "general") _ "general" "general" 0
     (Relation.ReflTransGen.single (Step.accept initSys 0 rfl))
     (by decide) (by decide)⟩

/-- C9: empty rooms are never pruned — a first join creates the room's
entry, `leave` and the broadcast eviction pass both preserve the
registry's key list exactly, and after the last member leaves the room
remains in the registry bound to the empty set. -/
theorem rooms_never_pruned (reg : Reg) (r room : Room) (h h' : Handle)
    (msg : String) (fails : Handle → Bool) :
    (regLookup reg r = none → regLookup (join reg r h) r = some [h]) ∧
    (leave reg room h').map Prod.fst = reg.map Prod.fst ∧
    ((_broadcast reg room msg fails).1).map Prod.fst = reg.map Prod.fst ∧
    (regLookup reg r = some [h] → regLookup (leave reg r h) r = some []) :=
  ⟨regLookup_join_none reg r h, keys_leave reg room h',
   keys_broadcast reg room msg fails, leave_last reg r h⟩

/-- Witness for C9: "waiting" is created by a first join, and after its
only member leaves it is still present, bound to the empty set. -/
theorem rooms_never_pruned_witness :
    regLookup (join [] "waiting" 7) "waiting" = some [7] ∧
    regLookup (leave [("waiting", [7])] "waiting" 7) "waiting" = some [] :=
  ⟨(rooms_never_pruned [] "waiting" "waiting" 7 7 "m" (fun _ => false)).1
      (by decide),
   (rooms_never_pruned [("waiting", [7])] "waiting" "waiting" 7 7 "m"
      (fun _ => false)).2.2.2 (by decide)⟩

/-- C10: frame property of `_broadcast` — if every member's send succeeds
the registry is returned completely unchanged (no member set and no room
key is touched), and broadcasting to a room with no registry entry
delivers nothing, does not create the entry, and raises no error. -/
theorem broadcast_frame (reg : Reg) (room : Room) (msg : String)
    (fails : Handle → Bool) :
    ((∀ h : Handle, memReg reg room h = true → fails h = false) →
      (_broadcast reg room msg fails).1 = reg) ∧
    (regLookup reg room = none →
      _broadcast reg room msg fails = (reg, []) ∧
      _broadcastE reg room msg fails = Except.ok (reg, [])) := by
  constructor
  · intro hok
    cases hl : regLookup reg room with
    | none => simp [_broadcast, hl]
    | some s =>
        have hfilter : s.filter (fun x => fails x) = [] := by
          apply List.filter_eq_nil_iff.mpr
          intro a ha
          have hamem : memReg reg room a = true := by
            rw [memReg_some reg room s a hl, decide_eq_true_eq]
            exact ha
          simp [hok a hamem]
        simp [_broadcast, hl, sendPass_eq, hfilter]
  · intro hl
    exact ⟨by simp [_broadcast, hl], by simp [_broadcastE, hl]⟩

/-- Witness for C10: an all-healthy broadcast to "general" leaves the
registry untouched, and a broadcast to the unknown room "ghost" returns
the empty registry and delivers to nobody. -/
theorem broadcast_frame_witness :
    (_broadcast [("general", [1, 2])] "general" "m" (fun _ => false)).1 =
      [("general", [1, 2])] ∧
    _broadcast [] "ghost" "m" (fun _ => false) = ([], []) :=
  ⟨(broadcast_frame [("general", [1, 2])] "general" "m"
      (fun _ => false)).1 (fun h _ => rfl),
   ((broadcast_frame [] "ghost" "m" (fun _ => false)).2 (by decide)).1⟩
